import Mathlib

/-!
# Verification of the threejs-lightmap-baker core

Shallow embedding of the progressive lightmap baker:

* `src/Atlas.tsx` — atlas rectangle allocation (`computeFaceUV`), mesh face
  registration (`useMeshWithAtlas`), the per-frame baking scheduler and the
  per-texel atlas write with seam bleeding (`iterate`);
* `src/IrradianceLightProbe.tsx` — the solid-angle weight lookup table
  (`probePixelAreaLookup`) and the texel-to-surface bilinear mapping;
* `src/IrradianceCompositor.tsx` — the per-frame factor-multiplier uniform
  update.

Rational numbers stand in for exact JS float arithmetic on the allocation /
scheduling side; real numbers model the floating-point computations involving
square roots (`Math.hypot`).
-/

/-! ## Atlas allocation constants (Atlas.tsx lines 5-20) -/

/-- `const atlasWidth = 256` -/
def atlasWidth : ℕ := 256

/-- `const atlasHeight = 256` -/
def atlasHeight : ℕ := 256

/-- `const bleedOffsetU = 2 / atlasWidth` -/
def bleedOffsetU : ℚ := 2 / atlasWidth

/-- `const bleedOffsetV = 2 / atlasHeight` -/
def bleedOffsetV : ℚ := 2 / atlasHeight

/-- `const itemSizeU = 0.1` -/
def itemSizeU : ℚ := 1 / 10

/-- `const itemSizeV = 0.1` -/
def itemSizeV : ℚ := 1 / 10

/-- `const itemUVMargin = 0.025` -/
def itemUVMargin : ℚ := 1 / 40

/-- `const atlasItemMaxDim = 5` (maximum physical dimension of a face) -/
def atlasItemMaxDim : ℚ := 5

/-- `const itemsPerRow = Math.floor(1 / (itemSizeU + itemUVMargin))` -/
def itemsPerRow : ℕ := (⌊(1 : ℚ) / (itemSizeU + itemUVMargin)⌋).toNat

/-- An atlas placement rectangle `{left, top, sizeU, sizeV}` in UV space. -/
structure Rect where
  left : ℚ
  top : ℚ
  sizeU : ℚ
  sizeV : ℚ
deriving DecidableEq, Repr

/-- Embeds `computeFaceUV` (Atlas.tsx lines 51-75).  The two parameters
`lenU` and `lenV` stand for `tmpU.length()` and `tmpV.length()` — the
Euclidean norms of the face edge vectors computed on lines 63-64; they are
kept as parameters because the norm itself (a square root) carries no
information relevant to the placement beyond its value. -/
def computeFaceUV (atlasFaceIndex : ℕ) (lenU lenV : ℚ) : Rect :=
  let itemColumn := atlasFaceIndex % itemsPerRow
  let itemRow := atlasFaceIndex / itemsPerRow
  let dUdim := min atlasItemMaxDim lenU
  let dVdim := min atlasItemMaxDim lenV
  { left := itemColumn * (itemSizeU + itemUVMargin) + bleedOffsetU
    top := itemRow * (itemSizeV + itemUVMargin) + bleedOffsetV
    sizeU := itemSizeU * (dUdim / atlasItemMaxDim)
    sizeV := itemSizeV * (dVdim / atlasItemMaxDim) }

/-- Two rectangles are separated when their projections are disjoint on the
U axis or on the V axis (no overlapping area). -/
def Rect.separated (r s : Rect) : Prop :=
  r.left + r.sizeU ≤ s.left ∨ s.left + s.sizeU ≤ r.left ∨
  r.top + r.sizeV ≤ s.top ∨ s.top + s.sizeV ≤ r.top

/-- A rectangle lies within the atlas bounds `[0,1] × [0,1]`. -/
def Rect.inBounds (r : Rect) : Prop :=
  0 ≤ r.left ∧ r.left + r.sizeU ≤ 1 ∧ 0 ≤ r.top ∧ r.top + r.sizeV ≤ 1

instance (r s : Rect) : Decidable (r.separated s) := by
  unfold Rect.separated; infer_instance

instance (r : Rect) : Decidable r.inBounds := by
  unfold Rect.inBounds; infer_instance

/-! ## Mesh registration (Atlas.tsx lines 126-178, `useMeshWithAtlas`) -/

/-- The data of a mesh buffer that registration inspects: whether it has an
index buffer, how many quad faces it resolves to
(`Math.floor(indexes.length / 6)`), and the two edge lengths of each face
(the norms fed to `computeFaceUV`). -/
structure MeshBufferModel where
  indexed : Bool
  faceCount : ℕ
  faceLens : ℕ → ℚ × ℚ

/-- Embeds the registration loop of `useMeshWithAtlas` (Atlas.tsx lines
131-172): it throws `'expecting indexed mesh buffer'` when the geometry has
no index buffer, and otherwise appends one `AtlasItem` rectangle per face,
the atlas face index being the running length of `atlasInfo` at push time.
It performs no capacity or bounds check of any kind. -/
def registerMesh (atlasInfo : List Rect) (buf : MeshBufferModel) :
    Except String (List Rect) :=
  if buf.indexed then
    .ok (atlasInfo ++ (List.range buf.faceCount).map (fun k =>
      computeFaceUV (atlasInfo.length + k) (buf.faceLens k).1 (buf.faceLens k).2))
  else
    .error "expecting indexed mesh buffer"

/-! ## Per-texel atlas write with seam bleeding (Atlas.tsx lines 362-381) -/

/-- One linear RGB texel value. -/
structure Color where
  r : ℚ
  g : ℚ
  b : ℚ
deriving DecidableEq, Repr

/-- The list of flat atlas-buffer indices written by one texel visit
(Atlas.tsx lines 362-379): the texel itself at `atlasTexelBase`, plus
`base - 1` when `faceTexelX == 0`, `base - atlasWidth` when
`faceTexelY == 0`, and `base - atlasWidth - 1` when both are zero. -/
def writtenIndices (base : ℤ) (faceTexelX faceTexelY : ℕ) : List ℤ :=
  base ::
    (if faceTexelX = 0 then [base - 1] else []) ++
    (if faceTexelY = 0 then [base - atlasWidth] else []) ++
    (if faceTexelX = 0 ∧ faceTexelY = 0 then [base - atlasWidth - 1] else [])

/-- Embeds the write sequence of `iterate` (Atlas.tsx lines 362-379): the
atlas buffer (indexed per texel) is updated at `atlasTexelBase` with the
accumulated value, then conditionally at the left / top / diagonal bleed
neighbours.  The buffer is modelled as a total map from flat texel index to
color, matching `data.set([ar, ag, ab], index * 3)` on a stride-3 array. -/
def writeAtlasTexel (data : ℤ → Color) (base : ℤ) (faceTexelX faceTexelY : ℕ)
    (v : Color) : ℤ → Color :=
  let d1 := fun j => if j = base then v else data j
  let d2 := if faceTexelX = 0 then (fun j => if j = base - 1 then v else d1 j) else d1
  let d3 := if faceTexelY = 0 then (fun j => if j = base - atlasWidth then v else d2 j) else d2
  if faceTexelX = 0 ∧ faceTexelY = 0 then
    (fun j => if j = base - atlasWidth - 1 then v else d3 j)
  else d3

/-! ## Texel-to-atlas index computation (Atlas.tsx lines 251-255, 281-285) -/

/-- Embeds `faceTexelCols = Math.ceil(sizeU * atlasWidth)` and
`faceTexelRows = Math.ceil(sizeV * atlasHeight)` (lines 251-255). -/
def faceTexelDims (r : Rect) : ℕ × ℕ :=
  ((⌈r.sizeU * (atlasWidth : ℚ)⌉).toNat, (⌈r.sizeV * (atlasHeight : ℚ)⌉).toNat)

/-- Embeds lines 281-285: `atlasTexelX = Math.floor(left * atlasWidth) +
faceTexelX`, `atlasTexelY = Math.floor(top * atlasWidth) + faceTexelY`
(the source uses `atlasWidth` for both axes), and line 362:
`atlasTexelBase = atlasTexelY * atlasWidth + atlasTexelX`. -/
def atlasTexelX (r : Rect) (faceTexelX : ℕ) : ℤ :=
  ⌊r.left * (atlasWidth : ℚ)⌋ + faceTexelX

def atlasTexelY (r : Rect) (faceTexelY : ℕ) : ℤ :=
  ⌊r.top * (atlasWidth : ℚ)⌋ + faceTexelY

def atlasTexelBase (r : Rect) (faceTexelX faceTexelY : ℕ) : ℤ :=
  atlasTexelY r faceTexelY * atlasWidth + atlasTexelX r faceTexelX

/-! ## Texel-to-surface mapping
(IrradianceLightProbe.tsx lines 190-201, Atlas.tsx lines 296-310) -/

/-- A 3-component vector over exact rationals. -/
structure Vec3 where
  x : ℚ
  y : ℚ
  z : ℚ
deriving DecidableEq, Repr

def Vec3.add (a b : Vec3) : Vec3 := ⟨a.x + b.x, a.y + b.y, a.z + b.z⟩

def Vec3.sub (a b : Vec3) : Vec3 := ⟨a.x - b.x, a.y - b.y, a.z - b.z⟩

def Vec3.smul (q : ℚ) (a : Vec3) : Vec3 := ⟨q * a.x, q * a.y, q * a.z⟩

/-- Embeds the surface-point interpolation shared by `renderLightProbe`
(IrradianceLightProbe.tsx lines 190-201) and `iterate` (Atlas.tsx lines
296-310): edge vectors are the other two corners minus the origin corner
(`tmpU.sub(tmpOrigin); tmpV.sub(tmpOrigin)`), and the sample point is
`origin + pU·uEdge + pV·vEdge`
(`tmpOrigin.addScaledVector(tmpU, pU).addScaledVector(tmpV, pV)`). -/
def mapTexelToSurface (origin cornerU cornerV : Vec3) (pU pV : ℚ) : Vec3 :=
  let uEdge := cornerU.sub origin
  let vEdge := cornerV.sub origin
  (origin.add (uEdge.smul pU)).add (vEdge.smul pV)

/-! ## Compositor per-frame multiplier update
(IrradianceCompositor.tsx lines 104-130) -/

/-- JS truthiness of the looked-up factor multiplier: `undefined` (absent)
and `0` are falsy; any other number is truthy. -/
def jsTruthy : Option ℚ → Bool
  | none => false
  | some m => decide (m ≠ 0)

/-- Embeds the `for (const factorName in factorOutputs)` loop of the
compositor's `useFrame` callback (IrradianceCompositor.tsx lines 117-124):
for each factor layer, the shader `multiplier` uniform is assigned only when
`factorValues[factorName]` is truthy; a multiplier of `0` (or an absent
entry) leaves the uniform unchanged. -/
def compositorFrameUpdate (names : List String)
    (factorValues : String → Option ℚ) (uniforms : String → ℚ) : String → ℚ :=
  names.foldl
    (fun u name =>
      if jsTruthy (factorValues name) then
        fun n => if n = name then (factorValues name).getD 0 else u n
      else u)
    uniforms

/-! ## Baking scheduler (Atlas.tsx lines 228-279, 400-403) -/

/-- The texel grid of one registered face: `faceTexelRows` and
`faceTexelCols` as computed on Atlas.tsx lines 251-255
(`Math.ceil(sizeV * atlasHeight)` and `Math.ceil(sizeU * atlasWidth)`). -/
structure SchedFace where
  rows : ℕ
  cols : ℕ
deriving DecidableEq, Repr

/-- The scheduler state: the per-face `pixelFillCount` fields of the
`AtlasItem`s (as a map from face position to fill count), the module-level
`atlasFaceFillIndexRef.current`, a count of stack promotions performed, and
the atlas texture stack itself (entries abstracted to identifiers). -/
structure SchedState where
  fillCounts : ℕ → ℕ
  faceIndex : ℕ
  rotations : ℕ
  stack : List ℕ

/-- Embeds the stack rotation of Atlas.tsx lines 273-277:
`const last = prev[prev.length - 1]; return [last, ...prev.slice(0, -1)]` —
the last stack entry is promoted to the front and the rest shift down. -/
def rotateStack (stack : List ℕ) : List ℕ :=
  match stack.getLast? with
  | none => stack
  | some last => last :: stack.dropLast

/-- Embeds one `iterate()` call's scheduling effect (Atlas.tsx lines
236-279): read the current face's fill count, bump it modulo
`faceTexelRows * faceTexelCols`; on wrap advance `atlasFaceFillIndexRef`
modulo the face count; when that wraps back to 0, rotate the texture
stack. -/
def schedStep (faces : List SchedFace) (s : SchedState) : SchedState :=
  let f := faces.getD s.faceIndex ⟨0, 0⟩
  let fillCount := s.fillCounts s.faceIndex
  let newFill := (fillCount + 1) % (f.rows * f.cols)
  let fillCounts' := fun j => if j = s.faceIndex then newFill else s.fillCounts j
  if newFill = 0 then
    let nextFace := (s.faceIndex + 1) % faces.length
    if nextFace = 0 then
      ⟨fillCounts', nextFace, s.rotations + 1, rotateStack s.stack⟩
    else
      ⟨fillCounts', nextFace, s.rotations, s.stack⟩
  else
    ⟨fillCounts', s.faceIndex, s.rotations, s.stack⟩

/-- The texel a call of `iterate()` visits from state `s`: the current face
index together with `faceTexelX = fillCount % faceTexelCols` and
`faceTexelY = Math.floor(fillCount / faceTexelCols)` (lines 260-261). -/
def schedVisit (faces : List SchedFace) (s : SchedState) : ℕ × ℕ × ℕ :=
  let f := faces.getD s.faceIndex ⟨0, 0⟩
  let fillCount := s.fillCounts s.faceIndex
  (s.faceIndex, fillCount % f.cols, fillCount / f.cols)

/-- `k` scheduler ticks at one texel visit per tick. -/
def schedRun (faces : List SchedFace) (s : SchedState) : ℕ → SchedState
  | 0 => s
  | k + 1 => schedRun faces (schedStep faces s) k

/-- The log, in visit order, of the texels visited by the first `k` ticks. -/
def schedVisits (faces : List SchedFace) (s : SchedState) : ℕ → List (ℕ × ℕ × ℕ)
  | 0 => []
  | k + 1 => schedVisit faces s :: schedVisits faces (schedStep faces s) k

/-- The scheduler's start state: every `pixelFillCount` 0, current face 0,
no rotations yet, a given texture stack. -/
def initSched (stack : List ℕ) : SchedState :=
  ⟨fun _ => 0, 0, 0, stack⟩

/-- `Σ over all faces of (faceTexelRows · faceTexelCols)`. -/
def totalTexels (faces : List SchedFace) : ℕ :=
  (faces.map (fun f => f.rows * f.cols)).sum

/-- All texels of face `i` in fill-count (row-major) order. -/
def faceTexels (faces : List SchedFace) (i : ℕ) : List (ℕ × ℕ × ℕ) :=
  (List.range ((faces.getD i ⟨0, 0⟩).rows * (faces.getD i ⟨0, 0⟩).cols)).map
    (fun c => (i, c % (faces.getD i ⟨0, 0⟩).cols, c / (faces.getD i ⟨0, 0⟩).cols))

/-! ## Probe weight lookup table (IrradianceLightProbe.tsx lines 122-145)
and probe reduction (Atlas.tsx lines 347-363) -/

/-- `Math.hypot(x, y)` on two arguments. -/
noncomputable def jsHypot (x y : ℝ) : ℝ := Real.sqrt (x * x + y * y)

/-- The weight of pixel `(px, py)` as computed in the
`probePixelAreaLookup` loop body (IrradianceLightProbe.tsx lines 125-140):
offsets from the sub-image center biased by half a pixel, and
`area = 1 / Math.hypot(Math.hypot(dx * 2, dy * 2), 1)`. -/
noncomputable def probePixelArea (probeTargetSize px py : ℕ) : ℝ :=
  let probePixelBias : ℝ := 0.5 / probeTargetSize
  let dy : ℝ := py / probeTargetSize - 0.5 + probePixelBias
  let dx : ℝ := px / probeTargetSize - 0.5 + probePixelBias
  let span := jsHypot (dx * 2) (dy * 2)
  let hypo := jsHypot span 1
  1 / hypo

/-- Embeds `probePixelAreaLookup` (IrradianceLightProbe.tsx lines 122-145):
the row-major table `lookup[py * probeTargetSize + px] = area`, built with
`py` as the outer loop and `px` as the inner loop. -/
noncomputable def probePixelAreaLookup (probeTargetSize : ℕ) : List ℝ :=
  (List.range probeTargetSize).flatMap (fun py =>
    (List.range probeTargetSize).map (fun px =>
      probePixelArea probeTargetSize px py))

/-- `const probeTargetSize = 32` (Atlas.tsx line 196). -/
def atlasProbeTargetSize : ℕ := 32

/-- Embeds the pixel-summation loop of `iterate` (Atlas.tsx lines 347-355):
walk the flat RGBA float buffer with stride 4, accumulating the R, G and B
components and ignoring alpha. -/
noncomputable def sumRGBFlat : List ℝ → ℝ × ℝ × ℝ
  | r :: g :: b :: _ :: rest =>
    let t := sumRGBFlat rest
    (r + t.1, g + t.2.1, b + t.2.2)
  | _ => (0, 0, 0)

/-- The RGB pixels of a flat RGBA buffer, in buffer order. -/
def pixelsOfFlat : List ℝ → List (ℝ × ℝ × ℝ)
  | r :: g :: b :: _ :: rest => (r, g, b) :: pixelsOfFlat rest
  | _ => []

/-- Embeds the probe-sample reduction of `iterate` (Atlas.tsx lines
347-360): per-channel plain sums divided by
`pixelCount = probeTargetSize * probeTargetSize` — the raw pixel count,
with no weighting. -/
noncomputable def probeReduce (probeData : List ℝ) : ℝ × ℝ × ℝ :=
  let s := sumRGBFlat probeData
  let pixelCount : ℝ := atlasProbeTargetSize * atlasProbeTargetSize
  (s.1 / pixelCount, s.2.1 / pixelCount, s.2.2 / pixelCount)

/-- Modelled from the spec: "accumulate `weight × linear RGB` per channel;
normalize by total weight (not raw pixel count)".  This follows the spec's
words only, for comparison with `probeReduce` — the reduction the code
actually performs. -/
noncomputable def specWeightedReduce (weights : List ℝ)
    (pixels : List (ℝ × ℝ × ℝ)) : ℝ × ℝ × ℝ :=
  let pairs := weights.zip pixels
  let totalWeight := weights.sum
  ((pairs.map (fun wp => wp.1 * wp.2.1)).sum / totalWeight,
   (pairs.map (fun wp => wp.1 * wp.2.2.1)).sum / totalWeight,
   (pairs.map (fun wp => wp.1 * wp.2.2.2)).sum / totalWeight)

/-- A concrete 32×32 RGBA probe buffer: the first pixel is pure red at
intensity 1, every other pixel is black. -/
noncomputable def cexProbeFlat : List ℝ :=
  1 :: 0 :: 0 :: 1 :: List.replicate (4 * 1023) 0

/-! # Theorems -/

/-! ## C8: texel-to-surface mapping corners -/

/-- **C8.** For every face, the surface point produced by the texel-to-surface
mapping (bilinear interpolation `origin + pU·uEdge + pV·vEdge`, with `uEdge`
and `vEdge` the other two corners minus the origin corner) at face-local
coordinates `(pU, pV) = (0, 0)` equals the face's origin corner position, and
at `(1, 1)` equals `origin + uEdge + vEdge`. -/
theorem mapTexelToSurface_corners (origin cornerU cornerV : Vec3) :
    mapTexelToSurface origin cornerU cornerV 0 0 = origin ∧
    mapTexelToSurface origin cornerU cornerV 1 1 =
      (origin.add (cornerU.sub origin)).add (cornerV.sub origin) := by
  constructor <;>
    · simp only [mapTexelToSurface, Vec3.add, Vec3.sub, Vec3.smul]
      cases origin; cases cornerU; cases cornerV
      simp only [Vec3.mk.injEq]
      refine ⟨by ring, by ring, by ring⟩

/-! ## C7: seam bleed write shape -/

/-- Pointwise description of one texel visit's buffer update: an entry gets
the accumulated value exactly when its index is among the written indices,
and is untouched otherwise. -/
theorem writeAtlasTexel_apply (data : ℤ → Color) (base : ℤ)
    (faceTexelX faceTexelY : ℕ) (v : Color) (j : ℤ) :
    writeAtlasTexel data base faceTexelX faceTexelY v j =
      if j ∈ writtenIndices base faceTexelX faceTexelY then v else data j := by
  have hW : ((atlasWidth : ℤ)) = 256 := rfl
  unfold writeAtlasTexel writtenIndices
  by_cases hx : faceTexelX = 0 <;> by_cases hy : faceTexelY = 0 <;>
    simp only [hx, hy, hW, reduceIte, ite_true, ite_false, and_self,
      List.append_nil, List.nil_append, List.cons_append, List.mem_cons,
      List.mem_singleton, List.not_mem_nil, or_false, true_and, and_true,
      false_and, if_true, if_false] <;>
    split_ifs <;> simp_all

/-- **C7.** For every texel visit: if the texel's face-local column
`faceTexelX` is 0, the accumulated value is also written to the atlas entry
immediately to its left; if its face-local row `faceTexelY` is 0, also to the
entry immediately above; if both are 0, also to the upper-left diagonal entry;
and a single texel visit modifies no atlas buffer entries other than the texel
itself and these bleed-border neighbours. -/
theorem writeAtlasTexel_spec (data : ℤ → Color) (base : ℤ)
    (faceTexelX faceTexelY : ℕ) (v : Color) :
    (writeAtlasTexel data base faceTexelX faceTexelY v base = v) ∧
    (faceTexelX = 0 →
      writeAtlasTexel data base faceTexelX faceTexelY v (base - 1) = v) ∧
    (faceTexelY = 0 →
      writeAtlasTexel data base faceTexelX faceTexelY v (base - atlasWidth) = v) ∧
    (faceTexelX = 0 → faceTexelY = 0 →
      writeAtlasTexel data base faceTexelX faceTexelY v (base - atlasWidth - 1) = v) ∧
    (∀ j : ℤ, j ∉ writtenIndices base faceTexelX faceTexelY →
      writeAtlasTexel data base faceTexelX faceTexelY v j = data j) := by
  refine ⟨?_, ?_, ?_, ?_, ?_⟩
  · rw [writeAtlasTexel_apply]
    simp [writtenIndices]
  · intro hx
    rw [writeAtlasTexel_apply]
    simp [writtenIndices, hx]
  · intro hy
    rw [writeAtlasTexel_apply]
    simp [writtenIndices, hy]
  · intro hx hy
    rw [writeAtlasTexel_apply]
    simp [writtenIndices, hx, hy]
  · intro j hj
    rw [writeAtlasTexel_apply, if_neg hj]

/-! ## C3, C4: allocation geometry and the missing overflow check -/

/-- Closed form of the allocated rectangle: column `i % 8`, row `i / 8`,
cell pitch `1/8`, bleed offset `1/128`, sizes scaled by the capped edge
lengths. -/
theorem computeFaceUV_eq (i : ℕ) (lU lV : ℚ) :
    computeFaceUV i lU lV =
      ⟨(i % 8 : ℕ) * (1/8) + 1/128, (i / 8 : ℕ) * (1/8) + 1/128,
       min 5 lU / 50, min 5 lV / 50⟩ := by
  have h8 : itemsPerRow = 8 := by
    norm_num [itemsPerRow, itemSizeU, itemUVMargin]
    decide
  unfold computeFaceUV
  rw [h8]
  simp only [itemSizeU, itemSizeV, itemUVMargin, bleedOffsetU, bleedOffsetV,
    atlasItemMaxDim, atlasWidth, atlasHeight, Rect.mk.injEq]
  refine ⟨by norm_num, by norm_num, by ring, by ring⟩

/-- **C3 (amended).** For every registered mesh face whose atlas face index is
below the 8×8 = 64 cell capacity and whose edge lengths are positive,
allocation is deterministic (a pure function of the face index and edge
lengths), the rectangle has positive sizes and lies within the atlas bounds
`[0,1] × [0,1]`, and rectangles of two distinct face indices are
non-overlapping.  (The unamended claim fails from atlas face index 64 on:
allocation walks rows downward without any bound.) -/
theorem computeFaceUV_allocation (i j : ℕ) (lUi lVi lUj lVj : ℚ)
    (hi : i < 64) (hj : j < 64) (hUi : 0 < lUi) (hVi : 0 < lVi) (hne : i ≠ j) :
    computeFaceUV i lUi lVi = computeFaceUV i lUi lVi ∧
    (computeFaceUV i lUi lVi).inBounds ∧
    0 < (computeFaceUV i lUi lVi).sizeU ∧
    0 < (computeFaceUV i lUi lVi).sizeV ∧
    (computeFaceUV i lUi lVi).separated (computeFaceUV j lUj lVj) := by
  have hci : ((i % 8 : ℕ) : ℚ) ≤ 7 := by
    exact_mod_cast Nat.le_of_lt_succ (Nat.mod_lt i (by norm_num))
  have hri : ((i / 8 : ℕ) : ℚ) ≤ 7 := by
    have : i / 8 ≤ 7 := by omega
    exact_mod_cast this
  have hminUi : min 5 lUi ≤ 5 := min_le_left _ _
  have hminVi : min 5 lVi ≤ 5 := min_le_left _ _
  have hminUj : min 5 lUj ≤ 5 := min_le_left _ _
  have hminVj : min 5 lVj ≤ 5 := min_le_left _ _
  refine ⟨rfl, ?_, ?_, ?_, ?_⟩
  · rw [computeFaceUV_eq]
    refine ⟨by positivity, ?_, by positivity, ?_⟩ <;> · simp only; linarith
  · rw [computeFaceUV_eq]
    simp only
    have : (0:ℚ) < min 5 lUi := lt_min (by norm_num) hUi
    linarith
  · rw [computeFaceUV_eq]
    simp only
    have : (0:ℚ) < min 5 lVi := lt_min (by norm_num) hVi
    linarith
  · rw [computeFaceUV_eq, computeFaceUV_eq]
    unfold Rect.separated
    simp only
    rcases Nat.lt_trichotomy (i / 8) (j / 8) with h | h | h
    · -- face i sits in an earlier row: V-separated
      have hc : ((i / 8 : ℕ) : ℚ) + 1 ≤ ((j / 8 : ℕ) : ℚ) := by exact_mod_cast h
      exact Or.inr (Or.inr (Or.inl (by linarith)))
    · -- same row: columns differ, U-separated
      have hcol : i % 8 ≠ j % 8 := by omega
      rcases Nat.lt_or_ge (i % 8) (j % 8) with hlt | hge
      · have hc : ((i % 8 : ℕ) : ℚ) + 1 ≤ ((j % 8 : ℕ) : ℚ) := by exact_mod_cast hlt
        exact Or.inl (by linarith)
      · have hlt : j % 8 < i % 8 := by omega
        have hc : ((j % 8 : ℕ) : ℚ) + 1 ≤ ((i % 8 : ℕ) : ℚ) := by exact_mod_cast hlt
        refine Or.inr (Or.inl ?_)
        have hcj : ((j % 8 : ℕ) : ℚ) ≤ 7 := by
          exact_mod_cast Nat.le_of_lt_succ (Nat.mod_lt j (by norm_num))
        linarith
    · -- face j sits in an earlier row: V-separated
      have hc : ((j / 8 : ℕ) : ℚ) + 1 ≤ ((i / 8 : ℕ) : ℚ) := by exact_mod_cast h
      have hrj : ((j / 8 : ℕ) : ℚ) ≤ 7 := by
        have : j / 8 ≤ 7 := by omega
        exact_mod_cast this
      exact Or.inr (Or.inr (Or.inr (by linarith)))

/-- Witness for C3 at concrete faces 0 and 1. -/
theorem computeFaceUV_allocation_witness :
    (computeFaceUV 0 5 5).inBounds ∧
    (computeFaceUV 0 5 5).separated (computeFaceUV 1 5 5) :=
  ⟨(computeFaceUV_allocation 0 1 5 5 5 5 (by decide) (by decide) (by norm_num)
      (by norm_num) (by decide)).2.1,
   (computeFaceUV_allocation 0 1 5 5 5 5 (by decide) (by decide) (by norm_num)
      (by norm_num) (by decide)).2.2.2.2⟩

/-- **C3 counterexample.** Registering a single 65-face mesh into an empty
atlas gives the 65th face (atlas face index 64) a rectangle whose top edge
already sits below the bottom of the atlas: the claim's "all lie within the
atlas bounds [0,1]×[0,1]" is false for this mesh. -/
theorem computeFaceUV_out_of_bounds :
    ((registerMesh [] ⟨true, 65, fun _ => (5, 5)⟩).toOption.getD []).getD 64
        ⟨0, 0, 0, 0⟩ = computeFaceUV 64 5 5 ∧
    ¬ (computeFaceUV 64 5 5).inBounds := by
  constructor
  · simp only [registerMesh, if_true, Except.toOption, Option.getD,
      List.nil_append]
    rw [List.getD_eq_getElem _ _ (by simp), List.getElem_map, List.getElem_range]
    norm_num
  · rw [computeFaceUV_eq]
    intro hin
    have h := hin.2.2.2
    simp only [Nat.reduceDiv, Nat.cast_ofNat, min_self] at h
    norm_num at h

/-- **C4 (amended).** Registration performs no capacity check whatsoever:
it succeeds exactly when the mesh buffer is indexed (its only failure is the
`'expecting indexed mesh buffer'` error), regardless of the face count; a
65-face mesh is accepted and its 65th face is silently allocated outside the
atlas bounds.  No `AtlasOverflow` error exists in the code. -/
theorem registerMesh_no_overflow (a : List Rect) (buf : MeshBufferModel) :
    ((registerMesh a buf).isOk = buf.indexed) ∧
    (buf.indexed = true → 65 ≤ buf.faceCount → 0 ≤ (buf.faceLens 64).2 →
      ¬ (((registerMesh [] buf).toOption.getD []).getD 64 ⟨0, 0, 0, 0⟩).inBounds) := by
  constructor
  · unfold registerMesh
    cases hb : buf.indexed <;> simp [hb, Except.isOk, Except.toBool]
  · intro hidx hcount hlen
    have hred : ((registerMesh [] buf).toOption.getD []).getD 64 ⟨0, 0, 0, 0⟩ =
        computeFaceUV 64 (buf.faceLens 64).1 (buf.faceLens 64).2 := by
      simp only [registerMesh, hidx, if_true, Except.toOption, Option.getD,
        List.nil_append]
      rw [List.getD_eq_getElem _ _ (by simp; omega), List.getElem_map,
        List.getElem_range]
      norm_num
    rw [hred, computeFaceUV_eq]
    intro hin
    have h := hin.2.2.2
    have hm : (0:ℚ) ≤ min 5 (buf.faceLens 64).2 := le_min (by norm_num) hlen
    simp only [Nat.reduceDiv, Nat.cast_ofNat] at h
    norm_num at h
    linarith

/-- Witness for C4 at a concrete 65-face mesh. -/
theorem registerMesh_no_overflow_witness :
    ¬ (((registerMesh [] ⟨true, 65, fun _ => (5, 5)⟩).toOption.getD []).getD 64
        ⟨0, 0, 0, 0⟩).inBounds :=
  (registerMesh_no_overflow [] ⟨true, 65, fun _ => (5, 5)⟩).2 rfl (by decide)
    (by norm_num)

/-- **C4 counterexample.** Registering a 65-face mesh (one face above the
8×8 = 64 cell capacity) succeeds — registration never fails with
`AtlasOverflow`. -/
theorem registerMesh_overflow_accepted :
    (registerMesh [] ⟨true, 65, fun _ => (5, 5)⟩).isOk = true := rfl

/-! ## C9: all write indices of one texel visit are in bounds -/

/-- Membership in a conditional singleton list forces the element's value. -/
theorem mem_singleton_of_ite {c : Prop} [Decidable c] {idx z : ℤ}
    (h : idx ∈ (if c then [z] else ([] : List ℤ))) : idx = z := by
  split at h
  · simpa using h
  · simp at h

/-- **C9.** For every face whose allocated rectangle lies within the atlas
bounds, every atlas buffer index written during one texel visit — the texel's
own flat index and, on leading edges, the bleed indices `base - 1`,
`base - atlasWidth` and `base - atlasWidth - 1` — is a valid index of the
256×256 atlas pixel buffer: the allocation's bleed offset places every
rectangle at least two texels from the left and top atlas edges, so no bleed
write wraps to a negative index.  (`lV ≥ 0` reflects that the edge length fed
to the allocator is a Euclidean norm.) -/
theorem atlasWriteIndices_in_bounds (i : ℕ) (lU lV : ℚ) (fx fy : ℕ)
    (hlV : 0 ≤ lV)
    (hin : (computeFaceUV i lU lV).top + (computeFaceUV i lU lV).sizeV ≤ 1)
    (hfx : fx < (faceTexelDims (computeFaceUV i lU lV)).1)
    (hfy : fy < (faceTexelDims (computeFaceUV i lU lV)).2) :
    2 ≤ atlasTexelX (computeFaceUV i lU lV) fx ∧
    2 ≤ atlasTexelY (computeFaceUV i lU lV) fy ∧
    ∀ idx ∈ writtenIndices (atlasTexelBase (computeFaceUV i lU lV) fx fy) fx fy,
      0 ≤ idx ∧ idx < (atlasWidth : ℤ) * atlasHeight := by
  set R : Rect := computeFaceUV i lU lV with hR
  have hRleft : R.left = ((i % 8 : ℕ) : ℚ) * (1/8) + 1/128 := by
    rw [hR, computeFaceUV_eq]
  have hRtop : R.top = ((i / 8 : ℕ) : ℚ) * (1/8) + 1/128 := by
    rw [hR, computeFaceUV_eq]
  have hRsU : R.sizeU = min 5 lU / 50 := by
    rw [hR, computeFaceUV_eq]
  have hRsV : R.sizeV = min 5 lV / 50 := by
    rw [hR, computeFaceUV_eq]
  have hWQ : ((atlasWidth : ℕ) : ℚ) = 256 := by norm_num [atlasWidth]
  have hHQ : ((atlasHeight : ℕ) : ℚ) = 256 := by norm_num [atlasHeight]
  have hWZ : ((atlasWidth : ℕ) : ℤ) = 256 := by norm_num [atlasWidth]
  have hminU : min 5 lU ≤ 5 := min_le_left _ _
  have hminV : min 5 lV ≤ 5 := min_le_left _ _
  have hminV0 : (0:ℚ) ≤ min 5 lV := le_min (by norm_num) hlV
  have hcol : i % 8 ≤ 7 := Nat.le_of_lt_succ (Nat.mod_lt i (by norm_num))
  -- the face sits in one of the first 8 rows because its rectangle fits
  have hrow : i / 8 ≤ 7 := by
    by_contra hcon
    have h8n : 8 ≤ i / 8 := by omega
    have h8 : (8:ℚ) ≤ ((i / 8 : ℕ) : ℚ) := by exact_mod_cast h8n
    rw [hRtop, hRsV] at hin
    linarith
  -- the face texel grid is at most 26 texels in each axis
  have hcols : (faceTexelDims R).1 ≤ 26 := by
    unfold faceTexelDims
    rw [hRsU, hWQ, Int.toNat_le, Int.ceil_le]
    push_cast
    linarith
  have hrows : (faceTexelDims R).2 ≤ 26 := by
    unfold faceTexelDims
    rw [hRsV, hHQ, Int.toNat_le, Int.ceil_le]
    push_cast
    linarith
  have hfx25 : fx ≤ 25 := by omega
  have hfy25 : fy ≤ 25 := by omega
  -- exact floors of the rectangle corner in texel units
  have hfloorX : ⌊R.left * ((atlasWidth : ℕ) : ℚ)⌋ = 32 * (i % 8 : ℕ) + 2 := by
    rw [hRleft, hWQ]
    have hv : (((i % 8 : ℕ) : ℚ) * (1/8) + 1/128) * 256 =
        ((32 * (i % 8) + 2 : ℕ) : ℚ) := by
      push_cast
      ring
    rw [hv, Int.floor_natCast]
    push_cast
    ring
  have hfloorY : ⌊R.top * ((atlasWidth : ℕ) : ℚ)⌋ = 32 * (i / 8 : ℕ) + 2 := by
    rw [hRtop, hWQ]
    have hv : (((i / 8 : ℕ) : ℚ) * (1/8) + 1/128) * 256 =
        ((32 * (i / 8) + 2 : ℕ) : ℚ) := by
      push_cast
      ring
    rw [hv, Int.floor_natCast]
    push_cast
    ring
  -- integer bounds on the texel coordinates
  have hX1 : 2 ≤ atlasTexelX R fx := by
    unfold atlasTexelX
    rw [hfloorX]
    omega
  have hX2 : atlasTexelX R fx ≤ 251 := by
    unfold atlasTexelX
    rw [hfloorX]
    omega
  have hY1 : 2 ≤ atlasTexelY R fy := by
    unfold atlasTexelY
    rw [hfloorY]
    omega
  have hY2 : atlasTexelY R fy ≤ 251 := by
    unfold atlasTexelY
    rw [hfloorY]
    omega
  have hbase : atlasTexelBase R fx fy =
      atlasTexelY R fy * 256 + atlasTexelX R fx := by
    unfold atlasTexelBase
    rw [hWZ]
  refine ⟨hX1, hY1, ?_⟩
  intro idx hidx
  have hWH : ((atlasWidth : ℕ) : ℤ) * ((atlasHeight : ℕ) : ℤ) = 65536 := by
    norm_num [atlasWidth, atlasHeight]
  rw [hWH]
  unfold writtenIndices at hidx
  rw [List.mem_append, List.mem_append, List.mem_cons] at hidx
  rcases hidx with ((h | h) | h) | h
  · rw [hbase] at h
    omega
  · have h' := mem_singleton_of_ite h
    rw [hbase] at h'
    omega
  · have h' := mem_singleton_of_ite h
    rw [hWZ, hbase] at h'
    omega
  · have h' := mem_singleton_of_ite h
    rw [hWZ, hbase] at h'
    omega

/-- Witness for C9 at face 63 (the last in-capacity face), a face with
edge lengths 25/128 (one texel per axis), texel (0,0). -/
theorem atlasWriteIndices_in_bounds_witness :
    2 ≤ atlasTexelX (computeFaceUV 63 (25/128) (25/128)) 0 ∧
    2 ≤ atlasTexelY (computeFaceUV 63 (25/128) (25/128)) 0 :=
  ⟨(atlasWriteIndices_in_bounds 63 (25/128) (25/128) 0 0 (by norm_num)
      (by rw [computeFaceUV_eq]; norm_num [min_def])
      (by unfold faceTexelDims; rw [computeFaceUV_eq]
          norm_num [min_def, atlasWidth, Int.ceil_one])
      (by unfold faceTexelDims; rw [computeFaceUV_eq]
          norm_num [min_def, atlasWidth, atlasHeight, Int.ceil_one])).1,
   (atlasWriteIndices_in_bounds 63 (25/128) (25/128) 0 0 (by norm_num)
      (by rw [computeFaceUV_eq]; norm_num [min_def])
      (by unfold faceTexelDims; rw [computeFaceUV_eq]
          norm_num [min_def, atlasWidth, Int.ceil_one])
      (by unfold faceTexelDims; rw [computeFaceUV_eq]
          norm_num [min_def, atlasWidth, atlasHeight, Int.ceil_one])).2.1⟩

/-! ## C10: compositor leaves zero-multiplier uniforms stale -/

/-- One loop iteration of the compositor frame update. -/
theorem compositorFrameUpdate_cons (n : String) (rest : List String)
    (fv : String → Option ℚ) (u : String → ℚ) :
    compositorFrameUpdate (n :: rest) fv u =
      compositorFrameUpdate rest fv
        (if jsTruthy (fv n) then
          (fun x => if x = n then (fv n).getD 0 else u x)
        else u) := rfl

/-- A factor name that is absent from the remaining loop iterations keeps its
uniform value. -/
theorem compositorFrameUpdate_not_mem (names : List String)
    (fv : String → Option ℚ) (u : String → ℚ) (name : String)
    (h : name ∉ names) :
    compositorFrameUpdate names fv u name = u name := by
  induction names generalizing u with
  | nil => rfl
  | cons n rest ih =>
    simp only [List.mem_cons, not_or] at h
    rw [compositorFrameUpdate_cons, ih _ h.2]
    split
    · show (if name = n then (fv n).getD 0 else u name) = u name
      rw [if_neg h.1]
    · rfl

/-- A factor whose runtime multiplier value is falsy (zero or absent) keeps
its uniform value through a frame update. -/
theorem compositorFrameUpdate_falsy (names : List String)
    (fv : String → Option ℚ) (u : String → ℚ) (name : String)
    (h : jsTruthy (fv name) = false) :
    compositorFrameUpdate names fv u name = u name := by
  induction names generalizing u with
  | nil => rfl
  | cons n rest ih =>
    rw [compositorFrameUpdate_cons, ih]
    split
    · rename_i htruthy
      show (if name = n then (fv n).getD 0 else u name) = u name
      by_cases hn : name = n
      · rw [hn] at h
        rw [h] at htruthy
        cases htruthy
      · rw [if_neg hn]
    · rfl

/-- A factor whose runtime multiplier is truthy gets its uniform set to that
multiplier by a frame update. -/
theorem compositorFrameUpdate_truthy (names : List String)
    (fv : String → Option ℚ) (u : String → ℚ) (name : String) (m : ℚ)
    (hmem : name ∈ names) (hv : fv name = some m) (hm : m ≠ 0) :
    compositorFrameUpdate names fv u name = m := by
  induction names generalizing u with
  | nil => cases hmem
  | cons n rest ih =>
    rw [compositorFrameUpdate_cons]
    by_cases hr : name ∈ rest
    · exact ih _ hr
    · have hn : name = n := by
        rcases List.mem_cons.mp hmem with h | h
        · exact h
        · exact absurd h hr
      subst hn
      rw [compositorFrameUpdate_not_mem rest fv _ name hr, hv]
      have ht : jsTruthy (some m) = true := by simp [jsTruthy, hm]
      rw [ht]
      simp

/-- **C10.** In the compositor's per-frame update, a factor layer whose
runtime multiplier value is 0 (or absent from `factorValues`) has its shader
`multiplier` uniform left unchanged rather than set to 0; consequently, after
a factor's multiplier changes from a nonzero value `m` on one frame to 0 on
the next, that layer's uniform still holds `m` instead of 0. -/
theorem compositor_stale_multiplier (names : List String)
    (v1 v2 : String → Option ℚ) (uniforms : String → ℚ) (name : String)
    (m : ℚ) (hm : m ≠ 0) (hmem : name ∈ names) (hv1 : v1 name = some m)
    (hv2 : v2 name = some 0 ∨ v2 name = none) :
    compositorFrameUpdate names v2 uniforms name = uniforms name ∧
    compositorFrameUpdate names v2
      (compositorFrameUpdate names v1 uniforms) name = m := by
  have hfalsy : jsTruthy (v2 name) = false := by
    rcases hv2 with h | h <;> simp [h, jsTruthy]
  constructor
  · exact compositorFrameUpdate_falsy names v2 uniforms name hfalsy
  · rw [compositorFrameUpdate_falsy names v2 _ name hfalsy]
    exact compositorFrameUpdate_truthy names v1 uniforms name m hmem hv1 hm

/-- Witness for C10: factor "a" baked with multiplier 2, then set to 0 —
the uniform stays 2. -/
theorem compositor_stale_multiplier_witness :
    compositorFrameUpdate ["a"] (fun _ => some 0)
      (compositorFrameUpdate ["a"] (fun _ => some 2) (fun _ => 0)) "a" = 2 :=
  (compositor_stale_multiplier ["a"] (fun _ => some 2) (fun _ => some 0)
    (fun _ => 0) "a" 2 (by norm_num) (by simp) rfl (Or.inl rfl)).2

/-- Witness for C7 at a concrete input. -/
theorem writeAtlasTexel_spec_witness :
    writeAtlasTexel (fun _ => ⟨0, 0, 0⟩) 1000 0 0 ⟨1, 2, 3⟩ 999 = ⟨1, 2, 3⟩ ∧
    writeAtlasTexel (fun _ => ⟨0, 0, 0⟩) 1000 0 0 ⟨1, 2, 3⟩ 500 = ⟨0, 0, 0⟩ := by
  refine ⟨(writeAtlasTexel_spec (fun _ => ⟨0, 0, 0⟩) 1000 0 0 ⟨1, 2, 3⟩).2.1 rfl, ?_⟩
  exact (writeAtlasTexel_spec (fun _ => ⟨0, 0, 0⟩) 1000 0 0 ⟨1, 2, 3⟩).2.2.2.2 500
    (by decide)

/-! ## C2: one full scheduler pass -/

/-- A scheduler tick in the middle of a face: the fill count just
increments. -/
theorem schedStep_mid (faces : List SchedFace) (i c ρ : ℕ) (st : List ℕ)
    (h : c + 1 < (faces.getD i ⟨0, 0⟩).rows * (faces.getD i ⟨0, 0⟩).cols) :
    schedStep faces ⟨fun j => if j = i then c else 0, i, ρ, st⟩ =
      ⟨fun j => if j = i then c + 1 else 0, i, ρ, st⟩ := by
  unfold schedStep
  simp only [eq_self_iff_true, if_true, Nat.mod_eq_of_lt h]
  rw [if_neg (by omega : ¬ c + 1 = 0)]
  simp only [SchedState.mk.injEq]
  refine ⟨funext fun j => ?_, by trivial, by trivial, by trivial⟩
  by_cases hj : j = i <;> simp [hj]

/-- A scheduler tick on the last texel of a face: the fill count wraps to 0,
the face index advances, and on wrapping to face 0 the stack rotates. -/
theorem schedStep_last (faces : List SchedFace) (i c ρ : ℕ) (st : List ℕ)
    (h : c + 1 = (faces.getD i ⟨0, 0⟩).rows * (faces.getD i ⟨0, 0⟩).cols) :
    schedStep faces ⟨fun j => if j = i then c else 0, i, ρ, st⟩ =
      if (i + 1) % faces.length = 0 then
        ⟨fun _ => 0, 0, ρ + 1, rotateStack st⟩
      else ⟨fun _ => 0, (i + 1) % faces.length, ρ, st⟩ := by
  unfold schedStep
  simp only [eq_self_iff_true, if_true, h, Nat.mod_self]
  split
  · rename_i hcond
    rw [hcond]
    simp only [SchedState.mk.injEq]
    refine ⟨funext fun j => ?_, by trivial, by trivial, by trivial⟩
    by_cases hj : j = i <;> simp [hj]
  · simp only [SchedState.mk.injEq]
    refine ⟨funext fun j => ?_, by trivial, by trivial, by trivial⟩
    by_cases hj : j = i <;> simp [hj]

/-- The visit performed from a mid-face state. -/
theorem schedVisit_at (faces : List SchedFace) (i c ρ : ℕ) (st : List ℕ) :
    schedVisit faces ⟨fun j => if j = i then c else 0, i, ρ, st⟩ =
      (i, c % (faces.getD i ⟨0, 0⟩).cols, c / (faces.getD i ⟨0, 0⟩).cols) := by
  unfold schedVisit
  simp

/-- Running a face from fill count `c` to completion: the remaining texels
are visited in fill-count order, the face index advances (rotating the stack
when it wraps to 0), and no intermediate tick rotates anything. -/
theorem schedRun_face (faces : List SchedFace) (i ρ : ℕ) (st : List ℕ)
    (k : ℕ) :
    ∀ c, c + k = (faces.getD i ⟨0, 0⟩).rows * (faces.getD i ⟨0, 0⟩).cols →
    0 < k →
    (schedRun faces ⟨fun j => if j = i then c else 0, i, ρ, st⟩ k =
      if (i + 1) % faces.length = 0 then
        ⟨fun _ => 0, 0, ρ + 1, rotateStack st⟩
      else ⟨fun _ => 0, (i + 1) % faces.length, ρ, st⟩) ∧
    (schedVisits faces ⟨fun j => if j = i then c else 0, i, ρ, st⟩ k =
      (List.range' c k).map (fun fc =>
        (i, fc % (faces.getD i ⟨0, 0⟩).cols, fc / (faces.getD i ⟨0, 0⟩).cols))) ∧
    (∀ m, m < k →
      schedRun faces ⟨fun j => if j = i then c else 0, i, ρ, st⟩ m =
        ⟨fun j => if j = i then c + m else 0, i, ρ, st⟩) := by
  induction k with
  | zero => omega
  | succ k ih =>
    intro c hk _
    rcases Nat.eq_zero_or_pos k with hk0 | hkpos
    · subst hk0
      have hlast := schedStep_last faces i c ρ st (by omega)
      refine ⟨?_, ?_, ?_⟩
      · show schedRun faces (schedStep faces _) 0 = _
        rw [hlast]
        rfl
      · show schedVisit faces _ :: schedVisits faces (schedStep faces _) 0 = _
        rw [schedVisit_at]
        rfl
      · intro m hm
        interval_cases m
        simp only [schedRun, SchedState.mk.injEq]
        exact ⟨funext fun j => by by_cases hj : j = i <;> simp [hj], by trivial, by trivial, by trivial⟩
    · have hmid := schedStep_mid faces i c ρ st (by omega)
      have ihc := ih (c + 1) (by omega) hkpos
      refine ⟨?_, ?_, ?_⟩
      · show schedRun faces (schedStep faces _) k = _
        rw [hmid]
        exact ihc.1
      · show schedVisit faces _ :: schedVisits faces (schedStep faces _) k = _
        rw [schedVisit_at, hmid, ihc.2.1, List.range'_succ, List.map_cons]
      · intro m hm
        cases m with
        | zero =>
          simp only [schedRun, SchedState.mk.injEq]
          exact ⟨funext fun j => by by_cases hj : j = i <;> simp [hj], by trivial, by trivial, by trivial⟩
        | succ m =>
          show schedRun faces (schedStep faces _) m = _
          rw [hmid]
          have := ihc.2.2 m (by omega)
          rw [this]
          simp only [SchedState.mk.injEq]
          refine ⟨funext fun j => ?_, by trivial, by trivial, by trivial⟩
          by_cases hj : j = i <;> simp [hj]
          omega

/-- Ticks compose. -/
theorem schedRun_add (faces : List SchedFace) (s : SchedState) (a b : ℕ) :
    schedRun faces s (a + b) = schedRun faces (schedRun faces s a) b := by
  induction a generalizing s with
  | zero =>
    rw [Nat.zero_add]
    rfl
  | succ a ih =>
    have h : a + 1 + b = (a + b) + 1 := by omega
    rw [h]
    show schedRun faces (schedStep faces s) (a + b) = _
    rw [ih]
    rfl

/-- Visit logs compose. -/
theorem schedVisits_add (faces : List SchedFace) (s : SchedState) (a b : ℕ) :
    schedVisits faces s (a + b) =
      schedVisits faces s a ++ schedVisits faces (schedRun faces s a) b := by
  induction a generalizing s with
  | zero =>
    rw [Nat.zero_add]
    rfl
  | succ a ih =>
    have h : a + 1 + b = (a + b) + 1 := by omega
    rw [h]
    show schedVisit faces s :: schedVisits faces (schedStep faces s) (a + b) = _
    rw [ih]
    rfl

/-- The visit log of `k` ticks has length `k`. -/
theorem schedVisits_length (faces : List SchedFace) (s : SchedState) (k : ℕ) :
    (schedVisits faces s k).length = k := by
  induction k generalizing s with
  | zero => rfl
  | succ k ih =>
    show (schedVisit faces s :: schedVisits faces (schedStep faces s) k).length = k + 1
    rw [List.length_cons, ih]

/-- Traversing all faces from face `i` on: every remaining texel is visited
once in order, the face index wraps to 0, exactly one stack rotation happens
and it happens only on the very last tick. -/
theorem schedRun_tail (faces : List SchedFace)
    (hpos : ∀ f ∈ faces, 0 < f.rows * f.cols) :
    ∀ (j : ℕ), ∀ (i ρ : ℕ) (st : List ℕ), i + j = faces.length → 0 < j →
    (schedRun faces ⟨fun _ => 0, i, ρ, st⟩
        (((faces.drop i).map (fun f => f.rows * f.cols)).sum) =
      ⟨fun _ => 0, 0, ρ + 1, rotateStack st⟩) ∧
    (schedVisits faces ⟨fun _ => 0, i, ρ, st⟩
        (((faces.drop i).map (fun f => f.rows * f.cols)).sum) =
      (List.range' i j).flatMap (faceTexels faces)) ∧
    (∀ m, m < ((faces.drop i).map (fun f => f.rows * f.cols)).sum →
      (schedRun faces ⟨fun _ => 0, i, ρ, st⟩ m).rotations = ρ ∧
      (schedRun faces ⟨fun _ => 0, i, ρ, st⟩ m).stack = st) := by
  intro j
  induction j with
  | zero => omega
  | succ j ih =>
    intro i ρ st hij hj
    have hi : i < faces.length := by omega
    have hface : faces.getD i ⟨0, 0⟩ = faces[i] := List.getD_eq_getElem _ _ hi
    have hRC : 0 < (faces.getD i ⟨0, 0⟩).rows * (faces.getD i ⟨0, 0⟩).cols := by
      rw [hface]
      exact hpos faces[i] (List.getElem_mem hi)
    have hzero : (fun k : ℕ => if k = i then (0 : ℕ) else 0) = fun _ => 0 := by
      funext k
      simp
    have hfaceRun := schedRun_face faces i ρ st
      ((faces.getD i ⟨0, 0⟩).rows * (faces.getD i ⟨0, 0⟩).cols) 0 (by omega) hRC
    rw [hzero] at hfaceRun
    have hdrop : faces.drop i = faces[i] :: faces.drop (i + 1) :=
      List.drop_eq_getElem_cons hi
    have hsum : ((faces.drop i).map (fun f => f.rows * f.cols)).sum =
        (faces.getD i ⟨0, 0⟩).rows * (faces.getD i ⟨0, 0⟩).cols +
          ((faces.drop (i + 1)).map (fun f => f.rows * f.cols)).sum := by
      rw [hdrop, List.map_cons, List.sum_cons, hface]
    rcases Nat.eq_zero_or_pos j with hj0 | hjpos
    · -- this is the last face: the pass ends here and the stack rotates
      subst hj0
      have hmod : (i + 1) % faces.length = 0 := by
        have : i + 1 = faces.length := by omega
        rw [this, Nat.mod_self]
      have hdrop1 : faces.drop (i + 1) = [] := by
        apply List.drop_eq_nil_of_le
        omega
      have hsum0 : ((faces.drop i).map (fun f => f.rows * f.cols)).sum =
          (faces.getD i ⟨0, 0⟩).rows * (faces.getD i ⟨0, 0⟩).cols := by
        rw [hsum, hdrop1]
        simp
      rw [hsum0]
      refine ⟨?_, ?_, ?_⟩
      · rw [hfaceRun.1, if_pos hmod]
      · rw [hfaceRun.2.1]
        show _ = (faceTexels faces i) ++ (List.range' (i + 1) 0).flatMap
          (faceTexels faces)
        unfold faceTexels
        rw [List.range_eq_range']
        simp
      · intro m hm
        rw [hfaceRun.2.2 m hm]
        exact ⟨rfl, rfl⟩
    · -- more faces remain: finish this face, then recurse
      have hmod : (i + 1) % faces.length = i + 1 := Nat.mod_eq_of_lt (by omega)
      have hmidrun : schedRun faces ⟨fun _ => 0, i, ρ, st⟩
          ((faces.getD i ⟨0, 0⟩).rows * (faces.getD i ⟨0, 0⟩).cols) =
          ⟨fun _ => 0, i + 1, ρ, st⟩ := by
        rw [hfaceRun.1, if_neg (by omega), hmod]
      have ihc := ih (i + 1) ρ st (by omega) hjpos
      rw [hsum]
      refine ⟨?_, ?_, ?_⟩
      · rw [schedRun_add, hmidrun, ihc.1]
      · rw [schedVisits_add, hmidrun, ihc.2.1, hfaceRun.2.1, List.range'_succ,
          List.flatMap_cons]
        unfold faceTexels
        rw [List.range_eq_range']
      · intro m hm
        by_cases hmlt : m < (faces.getD i ⟨0, 0⟩).rows * (faces.getD i ⟨0, 0⟩).cols
        · rw [hfaceRun.2.2 m hmlt]
          exact ⟨rfl, rfl⟩
        · have hm2 : m = (faces.getD i ⟨0, 0⟩).rows * (faces.getD i ⟨0, 0⟩).cols +
              (m - (faces.getD i ⟨0, 0⟩).rows * (faces.getD i ⟨0, 0⟩).cols) := by
            omega
          rw [hm2, schedRun_add, hmidrun]
          exact ihc.2.2 _ (by omega)

/-- A face's texel list contains no texel of another face. -/
theorem count_faceTexels_ne (faces : List SchedFace) (i x y j : ℕ)
    (hne : j ≠ i) : (faceTexels faces j).count (i, x, y) = 0 := by
  rw [List.count_eq_zero]
  intro hmem
  unfold faceTexels at hmem
  rw [List.mem_map] at hmem
  obtain ⟨c, _, hc⟩ := hmem
  exact hne (congrArg Prod.fst hc)

/-- In a list without duplicates, a member is counted exactly once (stated
for any lawful boolean equality). -/
theorem count_eq_one_of_nodup_mem {α : Type} [BEq α] [LawfulBEq α] {a : α}
    {l : List α} (hn : l.Nodup) (hm : a ∈ l) : l.count a = 1 := by
  induction l with
  | nil => cases hm
  | cons b t ih =>
    rw [List.nodup_cons] at hn
    rcases List.mem_cons.mp hm with rfl | hmt
    · rw [List.count_cons, List.count_eq_zero.mpr hn.1]
      simp
    · rw [List.count_cons, ih hn.2 hmt]
      have hba : ¬ b = a := by
        intro hb
        subst hb
        exact hn.1 hmt
      simp [hba]

/-- A face's texel list contains each of its texels exactly once. -/
theorem count_faceTexels_self (faces : List SchedFace) (i x y : ℕ)
    (hx : x < (faces.getD i ⟨0, 0⟩).cols)
    (hy : y < (faces.getD i ⟨0, 0⟩).rows) :
    (faceTexels faces i).count (i, x, y) = 1 := by
  have hC : 0 < (faces.getD i ⟨0, 0⟩).cols := by omega
  unfold faceTexels
  apply count_eq_one_of_nodup_mem
  · apply List.Nodup.map_on _ (List.nodup_range _)
    intro a _ b _ hab
    have h1 : a % (faces.getD i ⟨0, 0⟩).cols = b % (faces.getD i ⟨0, 0⟩).cols :=
      congrArg (fun p => p.2.1) hab
    have h2 : a / (faces.getD i ⟨0, 0⟩).cols = b / (faces.getD i ⟨0, 0⟩).cols :=
      congrArg (fun p => p.2.2) hab
    rw [← Nat.div_add_mod a (faces.getD i ⟨0, 0⟩).cols,
      ← Nat.div_add_mod b (faces.getD i ⟨0, 0⟩).cols, h1, h2]
  · rw [List.mem_map]
    refine ⟨y * (faces.getD i ⟨0, 0⟩).cols + x, ?_, ?_⟩
    · rw [List.mem_range]
      calc y * (faces.getD i ⟨0, 0⟩).cols + x
          < y * (faces.getD i ⟨0, 0⟩).cols + (faces.getD i ⟨0, 0⟩).cols := by
            omega
        _ = (y + 1) * (faces.getD i ⟨0, 0⟩).cols := by ring
        _ ≤ (faces.getD i ⟨0, 0⟩).rows * (faces.getD i ⟨0, 0⟩).cols :=
            Nat.mul_le_mul_right _ hy
    · have hmod : (y * (faces.getD i ⟨0, 0⟩).cols + x) %
          (faces.getD i ⟨0, 0⟩).cols = x := by
        rw [Nat.add_comm, Nat.mul_comm, Nat.add_mul_mod_self_left,
          Nat.mod_eq_of_lt hx]
      have hdiv : (y * (faces.getD i ⟨0, 0⟩).cols + x) /
          (faces.getD i ⟨0, 0⟩).cols = y := by
        rw [Nat.add_comm, Nat.mul_comm, Nat.add_mul_div_left _ _ hC,
          Nat.div_eq_of_lt hx, Nat.zero_add]
      rw [hmod, hdiv]

/-- Texels of face `i` never occur in the canonical enumeration of a face
range that excludes `i`. -/
theorem count_canonical_zero (faces : List SchedFace) (i x y : ℕ) :
    ∀ (jn a : ℕ), i < a ∨ a + jn ≤ i →
      ((List.range' a jn).flatMap (faceTexels faces)).count (i, x, y) = 0
  | 0, a, _ => rfl
  | jn + 1, a, h => by
    rw [List.range'_succ, List.flatMap_cons, List.count_append,
      count_faceTexels_ne faces i x y a (by omega),
      count_canonical_zero faces i x y jn (a + 1) (by omega)]

/-- Each in-range texel occurs exactly once in the canonical enumeration. -/
theorem count_canonical (faces : List SchedFace) (i x y : ℕ)
    (hx : x < (faces.getD i ⟨0, 0⟩).cols)
    (hy : y < (faces.getD i ⟨0, 0⟩).rows) :
    ∀ (jn a : ℕ), a ≤ i → i < a + jn →
      ((List.range' a jn).flatMap (faceTexels faces)).count (i, x, y) = 1
  | 0, a, ha, hia => by omega
  | jn + 1, a, ha, hia => by
    rw [List.range'_succ, List.flatMap_cons, List.count_append]
    by_cases hai : a = i
    · subst hai
      rw [count_faceTexels_self faces a x y hx hy,
        count_canonical_zero faces a x y jn (a + 1) (by omega)]
    · rw [count_faceTexels_ne faces i x y a hai,
        count_canonical faces i x y hx hy jn (a + 1) (by omega) (by omega)]

/-- **C2.** Starting from fill count 0 on face 0, after exactly
`Σ over all faces of (faceTexelRows · faceTexelCols)` texel visits at one
visit per tick, the scheduler has visited every texel of every face exactly
once, the current face index has wrapped back to 0, and exactly one
texture-stack rotation (last stack entry promoted to front, the rest shifted
down) has occurred — and no rotation occurs at any earlier tick. -/
theorem scheduler_full_pass (faces : List SchedFace) (stack : List ℕ)
    (hne : faces ≠ []) (hpos : ∀ f ∈ faces, 0 < f.rows * f.cols) :
    (schedVisits faces (initSched stack) (totalTexels faces)).length =
      totalTexels faces ∧
    (∀ i x y, i < faces.length → x < (faces.getD i ⟨0, 0⟩).cols →
      y < (faces.getD i ⟨0, 0⟩).rows →
      (schedVisits faces (initSched stack) (totalTexels faces)).count
        (i, x, y) = 1) ∧
    (schedRun faces (initSched stack) (totalTexels faces)).faceIndex = 0 ∧
    (schedRun faces (initSched stack) (totalTexels faces)).rotations = 1 ∧
    (schedRun faces (initSched stack) (totalTexels faces)).stack =
      rotateStack stack ∧
    (∀ m, m < totalTexels faces →
      (schedRun faces (initSched stack) m).rotations = 0 ∧
      (schedRun faces (initSched stack) m).stack = stack) := by
  have hn : 0 < faces.length := List.length_pos.mpr hne
  have htail := schedRun_tail faces hpos faces.length 0 0 stack (by omega) hn
  have htot : ((faces.drop 0).map (fun f => f.rows * f.cols)).sum =
      totalTexels faces := by
    rw [List.drop_zero]
    rfl
  rw [htot] at htail
  have hinit : initSched stack = (⟨fun _ => 0, 0, 0, stack⟩ : SchedState) := rfl
  rw [hinit]
  refine ⟨schedVisits_length faces _ _, ?_, ?_, ?_, ?_, ?_⟩
  · intro i x y hi hx hy
    rw [htail.2.1]
    exact count_canonical faces i x y hx hy faces.length 0 (by omega) (by omega)
  · rw [htail.1]
  · rw [htail.1]
  · rw [htail.1]
  · intro m hm
    exact htail.2.2 m hm

/-- Witness for C2: one 2×2 face, a two-entry stack; after 4 ticks exactly
one rotation has occurred and texel (1,1) was visited once. -/
theorem scheduler_full_pass_witness :
    (schedRun [⟨2, 2⟩] (initSched [7, 9]) (totalTexels [⟨2, 2⟩])).rotations = 1 ∧
    (schedRun [⟨2, 2⟩] (initSched [7, 9]) (totalTexels [⟨2, 2⟩])).stack = [9, 7] ∧
    (schedVisits [⟨2, 2⟩] (initSched [7, 9]) (totalTexels [⟨2, 2⟩])).count
      (0, 1, 1) = 1 :=
  ⟨(scheduler_full_pass [⟨2, 2⟩] [7, 9] (by decide) (by decide)).2.2.2.1,
   (scheduler_full_pass [⟨2, 2⟩] [7, 9] (by decide) (by decide)).2.2.2.2.1,
   (scheduler_full_pass [⟨2, 2⟩] [7, 9] (by decide) (by decide)).2.1 0 1 1
     (by decide) (by decide) (by decide)⟩

/-! ## C5: the weight lookup table -/

/-- Indexing a row-major grid built as a `flatMap` of equal-length rows. -/
theorem getD_flatMap_rows (g : ℕ → ℕ → ℝ) (n : ℕ) :
    ∀ (rows : List ℕ) (q px : ℕ), q < rows.length → px < n →
      ((rows.flatMap (fun py => (List.range n).map (fun px => g py px))).getD
        (q * n + px) 0) = g (rows.getD q 0) px := by
  intro rows
  induction rows with
  | nil =>
    intro q px hq _
    cases hq
  | cons r rest ih =>
    intro q px hq hpx
    rw [List.flatMap_cons]
    cases q with
    | zero =>
      rw [Nat.zero_mul, Nat.zero_add,
        List.getD_append _ _ _ _ (by simpa using hpx),
        List.getD_eq_getElem _ _ (by simpa using hpx), List.getElem_map,
        List.getElem_range]
      rfl
    | succ q =>
      have hidx : (q + 1) * n + px = n + (q * n + px) := by ring
      have hlen : ((List.range n).map (fun px => g r px)).length = n := by simp
      rw [hidx, List.getD_append_right _ _ _ _ (by omega)]
      rw [hlen, Nat.add_sub_cancel_left]
      exact ih q px (by simpa using hq) hpx

/-- The lookup table has one entry per pixel of the probe square. -/
theorem probePixelAreaLookup_length (n : ℕ) :
    (probePixelAreaLookup n).length = n * n := by
  unfold probePixelAreaLookup
  rw [List.length_flatMap]
  simp only [Function.comp_def, List.length_map, List.length_range,
    List.map_const', List.sum_replicate, smul_eq_mul]

/-- The loop-body weight in closed form. -/
theorem probePixelArea_eq (n px py : ℕ) :
    probePixelArea n px py =
      1 / Real.sqrt (1 + (2 * ((px : ℝ) / n - 0.5 + 0.5 / n))^2 +
        (2 * ((py : ℝ) / n - 0.5 + 0.5 / n))^2) := by
  unfold probePixelArea jsHypot
  dsimp only
  rw [Real.mul_self_sqrt (add_nonneg (mul_self_nonneg _) (mul_self_nonneg _))]
  congr 1
  congr 1
  ring

/-- **C5.** For every probe resolution `n` and every pixel `(px, py)` with
`px, py < n`, the weight lookup table entry at index `py·n + px` equals
`1 / sqrt(1 + (2·dx)² + (2·dy)²)` where `dx = px/n − 0.5 + 0.5/n` and
`dy = py/n − 0.5 + 0.5/n`; the table has exactly `n²` entries. -/
theorem probePixelAreaLookup_spec (n px py : ℕ) (hpx : px < n) (hpy : py < n) :
    (probePixelAreaLookup n).length = n * n ∧
    (probePixelAreaLookup n).getD (py * n + px) 0 =
      1 / Real.sqrt (1 + (2 * ((px : ℝ) / n - 0.5 + 0.5 / n))^2 +
        (2 * ((py : ℝ) / n - 0.5 + 0.5 / n))^2) := by
  refine ⟨probePixelAreaLookup_length n, ?_⟩
  · unfold probePixelAreaLookup
    have h := getD_flatMap_rows (fun py px => probePixelArea n px py) n
      (List.range n) py px (by simpa using hpy) hpx
    have hrow : (List.range n).getD py 0 = py := by
      rw [List.getD_eq_getElem _ _ (by simpa using hpy), List.getElem_range]
    rw [hrow] at h
    rw [h]
    exact probePixelArea_eq n px py

/-- Witness for C5 at resolution 1, pixel (0,0). -/
theorem probePixelAreaLookup_spec_witness :
    (probePixelAreaLookup 1).length = 1 * 1 ∧
    (probePixelAreaLookup 1).getD (0 * 1 + 0) 0 =
      1 / Real.sqrt (1 + (2 * (((0 : ℕ) : ℝ) / ((1 : ℕ) : ℝ) - 0.5 +
          0.5 / ((1 : ℕ) : ℝ)))^2 +
        (2 * (((0 : ℕ) : ℝ) / ((1 : ℕ) : ℝ) - 0.5 + 0.5 / ((1 : ℕ) : ℝ)))^2) :=
  probePixelAreaLookup_spec 1 0 0 (by decide) (by decide)

/-! ## C6: the weight table's total sum across resolutions -/

/-- The squared biased pixel offset lies strictly between 0 and 1 for an
even resolution. -/
theorem probeCoord_sq (n p : ℕ) (hp : p < n) (he : Even n) :
    0 < (2 * ((p : ℝ) / n - 0.5 + 0.5 / n))^2 ∧
    (2 * ((p : ℝ) / n - 0.5 + 0.5 / n))^2 < 1 := by
  have hn0 : 0 < n := by omega
  have hnR : (0 : ℝ) < n := by exact_mod_cast hn0
  have ht : 2 * ((p : ℝ) / n - 0.5 + 0.5 / n) = (2 * p + 1 - n) / n := by
    field_simp
    ring
  rw [ht]
  constructor
  · have hne : (2 * (p : ℝ) + 1 - n) ≠ 0 := by
      intro h0
      have hcast : ((2 * p + 1 : ℕ) : ℝ) = ((n : ℕ) : ℝ) := by
        push_cast
        linarith
      have hnat : 2 * p + 1 = n := by exact_mod_cast hcast
      rcases he with ⟨m, hm⟩
      omega
    have hdivne : (2 * (p : ℝ) + 1 - n) / n ≠ 0 :=
      div_ne_zero hne (ne_of_gt hnR)
    exact pow_two_pos_of_ne_zero hdivne
  · rw [sq_lt_one_iff_abs_lt_one, abs_div, abs_of_pos hnR, div_lt_one hnR,
      abs_lt]
    have hpR : (p : ℝ) + 1 ≤ n := by exact_mod_cast hp
    have hp0 : (0 : ℝ) ≤ p := Nat.cast_nonneg p
    constructor <;> linarith

/-- For an even probe resolution every weight lies strictly between
`1/√3` and 1. -/
theorem probePixelArea_bounds (n px py : ℕ) (hpx : px < n) (hpy : py < n)
    (he : Even n) :
    1 / Real.sqrt 3 < probePixelArea n px py ∧ probePixelArea n px py < 1 := by
  rw [probePixelArea_eq]
  obtain ⟨hx0, hx1⟩ := probeCoord_sq n px hpx he
  obtain ⟨hy0, hy1⟩ := probeCoord_sq n py hpy he
  have hargpos : (0 : ℝ) < 1 + (2 * ((px : ℝ) / n - 0.5 + 0.5 / n))^2 +
      (2 * ((py : ℝ) / n - 0.5 + 0.5 / n))^2 := by linarith
  have hsqrtpos : 0 < Real.sqrt (1 + (2 * ((px : ℝ) / n - 0.5 + 0.5 / n))^2 +
      (2 * ((py : ℝ) / n - 0.5 + 0.5 / n))^2) := Real.sqrt_pos.mpr hargpos
  constructor
  · have h3 : Real.sqrt (1 + (2 * ((px : ℝ) / n - 0.5 + 0.5 / n))^2 +
        (2 * ((py : ℝ) / n - 0.5 + 0.5 / n))^2) < Real.sqrt 3 :=
      Real.sqrt_lt_sqrt (by linarith) (by linarith)
    exact one_div_lt_one_div_of_lt hsqrtpos h3
  · rw [div_lt_one hsqrtpos]
    calc (1 : ℝ) = Real.sqrt 1 := Real.sqrt_one.symm
      _ < _ := Real.sqrt_lt_sqrt (by norm_num) (by linarith)

/-- Every member of the lookup table is a pixel weight. -/
theorem probePixelAreaLookup_mem (n : ℕ) (x : ℝ)
    (hx : x ∈ probePixelAreaLookup n) :
    ∃ px py, px < n ∧ py < n ∧ x = probePixelArea n px py := by
  unfold probePixelAreaLookup at hx
  rw [List.mem_flatMap] at hx
  obtain ⟨py, hpy, hx2⟩ := hx
  rw [List.mem_map] at hx2
  obtain ⟨px, hpx, rfl⟩ := hx2
  exact ⟨px, py, List.mem_range.mp hpx, List.mem_range.mp hpy, rfl⟩

/-- A uniform lower bound on a list's members bounds its sum. -/
theorem mul_le_sum (a : ℝ) : ∀ l : List ℝ, (∀ x ∈ l, a ≤ x) →
    a * l.length ≤ l.sum
  | [], _ => by simp
  | y :: ys, hall => by
    rw [List.sum_cons, List.length_cons]
    have hrest := mul_le_sum a ys (fun z hz => hall z (List.mem_cons_of_mem _ hz))
    have hy := hall y (List.mem_cons_self y ys)
    push_cast
    linarith

/-- A uniform lower bound that is strict somewhere strictly bounds the
sum. -/
theorem mul_lt_sum_of_exists (a x0 : ℝ) (hx0 : a < x0) :
    ∀ l : List ℝ, (∀ x ∈ l, a ≤ x) → x0 ∈ l → a * l.length < l.sum
  | [], _, hmem => by cases hmem
  | y :: ys, hall, hmem => by
    rw [List.sum_cons, List.length_cons]
    have hyle := hall y (List.mem_cons_self y ys)
    rcases List.mem_cons.mp hmem with rfl | hmem2
    · have hrest := mul_le_sum a ys
        (fun z hz => hall z (List.mem_cons_of_mem _ hz))
      push_cast
      linarith
    · have hrec := mul_lt_sum_of_exists a x0 hx0 ys
        (fun z hz => hall z (List.mem_cons_of_mem _ hz)) hmem2
      push_cast
      linarith

/-- A strict uniform lower bound strictly bounds the sum of a nonempty
list. -/
theorem mul_lt_sum_of_forall (a : ℝ) (l : List ℝ) (hne : l ≠ [])
    (hall : ∀ x ∈ l, a < x) : a * l.length < l.sum := by
  obtain ⟨y, ys, rfl⟩ := List.exists_cons_of_ne_nil hne
  exact mul_lt_sum_of_exists a y (hall y (List.mem_cons_self y ys)) (y :: ys)
    (fun z hz => le_of_lt (hall z hz)) (List.mem_cons_self y ys)

/-- A strict uniform upper bound strictly bounds the sum of a nonempty
list. -/
theorem sum_lt_mul_of_forall (b : ℝ) : ∀ l : List ℝ, l ≠ [] →
    (∀ x ∈ l, x < b) → l.sum < b * l.length
  | [], h, _ => absurd rfl h
  | y :: ys, _, hall => by
    rw [List.sum_cons, List.length_cons]
    have hy := hall y (List.mem_cons_self y ys)
    rcases eq_or_ne ys [] with rfl | hne2
    · simp only [List.sum_nil, List.length_nil]
      push_cast
      linarith
    · have hrec := sum_lt_mul_of_forall b ys hne2
        (fun z hz => hall z (List.mem_cons_of_mem _ hz))
      push_cast
      linarith

/-- For every even probe resolution, the table's total sum lies strictly
between `n²/√3` and `n²` — so it scales with the squared resolution. -/
theorem probePixelAreaLookup_sum_bounds (n : ℕ) (hn : 0 < n) (he : Even n) :
    ((n : ℝ) * n) / Real.sqrt 3 < (probePixelAreaLookup n).sum ∧
    (probePixelAreaLookup n).sum < (n : ℝ) * n := by
  have hlen : (probePixelAreaLookup n).length = n * n :=
    probePixelAreaLookup_length n
  have hlenR : ((probePixelAreaLookup n).length : ℝ) = (n : ℝ) * n := by
    rw [hlen]
    push_cast
    ring
  have hne : probePixelAreaLookup n ≠ [] := by
    apply List.ne_nil_of_length_pos
    rw [hlen]
    exact Nat.mul_pos hn hn
  have hs3 : (0 : ℝ) < Real.sqrt 3 := Real.sqrt_pos.mpr (by norm_num)
  constructor
  · have hall : ∀ x ∈ probePixelAreaLookup n, 1 / Real.sqrt 3 < x := by
      intro x hx
      obtain ⟨px, py, hpx, hpy, rfl⟩ := probePixelAreaLookup_mem n x hx
      exact (probePixelArea_bounds n px py hpx hpy he).1
    have h := mul_lt_sum_of_forall _ _ hne hall
    rw [hlenR] at h
    calc ((n : ℝ) * n) / Real.sqrt 3 = 1 / Real.sqrt 3 * ((n : ℝ) * n) := by
          ring
      _ < _ := h
  · have hall : ∀ x ∈ probePixelAreaLookup n, x < 1 := by
      intro x hx
      obtain ⟨px, py, hpx, hpy, rfl⟩ := probePixelAreaLookup_mem n x hx
      exact (probePixelArea_bounds n px py hpx hpy he).2
    have h := sum_lt_mul_of_forall _ _ hne hall
    rw [hlenR] at h
    calc (probePixelAreaLookup n).sum < 1 * ((n : ℝ) * n) := h
      _ = (n : ℝ) * n := by ring

/-- `√3 < 4`. -/
theorem sqrt_three_lt_four : Real.sqrt 3 < 4 := by
  rw [Real.sqrt_lt' (by norm_num)]
  norm_num

/-- **C6 counterexample.** The table's sum at resolution 8 is below 64 while
at resolution 16 it is above 147: the sums differ by more than 83, far
beyond any floating tolerance — the total is not constant across
resolutions. -/
theorem probeLookup_sum_not_constant :
    (probePixelAreaLookup 8).sum < 64 ∧
    (147 : ℝ) < (probePixelAreaLookup 16).sum := by
  have hs3 : (0 : ℝ) < Real.sqrt 3 := Real.sqrt_pos.mpr (by norm_num)
  constructor
  · have h := (probePixelAreaLookup_sum_bounds 8 (by norm_num) (by decide)).2
    push_cast at h
    linarith
  · have h := (probePixelAreaLookup_sum_bounds 16 (by norm_num) (by decide)).1
    push_cast at h
    have h3 : Real.sqrt 3 < 256 / 147 := by
      rw [Real.sqrt_lt' (by norm_num)]
      norm_num
    have hmul : (147 : ℝ) * Real.sqrt 3 < 256 := by
      have := mul_lt_mul_of_pos_left h3 (by norm_num : (0 : ℝ) < 147)
      calc (147 : ℝ) * Real.sqrt 3 < 147 * (256 / 147) := this
        _ = 256 := by norm_num
    have h256 : (147 : ℝ) < 256 / Real.sqrt 3 := by
      rw [lt_div_iff hs3]
      exact hmul
    nlinarith

/-- **C6 (amended).** The weight lookup table's total sum is not constant
across the probe resolutions 8, 16, 32, 64: it strictly increases with
resolution, each sum lying strictly between `n²/√3` and `n²` (what is
resolution-invariant is the normalized mean, bounded in `(1/√3, 1)`, not the
raw total). -/
theorem probeLookup_sum_scales :
    (probePixelAreaLookup 8).sum < (probePixelAreaLookup 16).sum ∧
    (probePixelAreaLookup 16).sum < (probePixelAreaLookup 32).sum ∧
    (probePixelAreaLookup 32).sum < (probePixelAreaLookup 64).sum ∧
    (∀ n : ℕ, 0 < n → Even n →
      ((n : ℝ) * n) / Real.sqrt 3 < (probePixelAreaLookup n).sum ∧
      (probePixelAreaLookup n).sum < (n : ℝ) * n) := by
  have hs3 : (0 : ℝ) < Real.sqrt 3 := Real.sqrt_pos.mpr (by norm_num)
  have hstep : ∀ a b : ℕ, 0 < a → Even a → 0 < b → Even b →
      4 * ((a : ℝ) * a) ≤ (b : ℝ) * b →
      (probePixelAreaLookup a).sum < (probePixelAreaLookup b).sum := by
    intro a b ha hea hb heb hab
    have h1 := (probePixelAreaLookup_sum_bounds a ha hea).2
    have h2 := (probePixelAreaLookup_sum_bounds b hb heb).1
    have hbound : (a : ℝ) * a < ((b : ℝ) * b) / Real.sqrt 3 := by
      have haa : (0 : ℝ) < (a : ℝ) * a := by
        have haR : (0 : ℝ) < (a : ℝ) := by exact_mod_cast ha
        nlinarith
      have hlt := mul_lt_mul_of_pos_left sqrt_three_lt_four haa
      rw [lt_div_iff hs3]
      linarith
    linarith
  refine ⟨?_, ?_, ?_, fun n hn he => probePixelAreaLookup_sum_bounds n hn he⟩
  · have := hstep 8 16 (by norm_num) (by decide) (by norm_num) (by decide)
      (by push_cast; norm_num)
    exact this
  · have := hstep 16 32 (by norm_num) (by decide) (by norm_num) (by decide)
      (by push_cast; norm_num)
    exact this
  · have := hstep 32 64 (by norm_num) (by decide) (by norm_num) (by decide)
      (by push_cast; norm_num)
    exact this

/-- Witness for C6 at resolution 8. -/
theorem probeLookup_sum_scales_witness :
    ((8 : ℕ) : ℝ) * ((8 : ℕ) : ℝ) / Real.sqrt 3 <
      (probePixelAreaLookup 8).sum ∧
    (probePixelAreaLookup 8).sum < ((8 : ℕ) : ℝ) * ((8 : ℕ) : ℝ) :=
  probeLookup_sum_scales.2.2.2 8 (by decide) (by decide)

/-! ## C1: the probe reduction normalization -/

/-- The stride-4 summation loop computes exactly the per-pixel channel
sums. -/
theorem sumRGBFlat_eq : ∀ l : List ℝ,
    sumRGBFlat l = (((pixelsOfFlat l).map (fun p => p.1)).sum,
      ((pixelsOfFlat l).map (fun p => p.2.1)).sum,
      ((pixelsOfFlat l).map (fun p => p.2.2)).sum)
  | [] => rfl
  | [_] => rfl
  | [_, _] => rfl
  | [_, _, _] => rfl
  | r :: g :: b :: a :: rest => by
    show (r + (sumRGBFlat rest).1, g + (sumRGBFlat rest).2.1,
        b + (sumRGBFlat rest).2.2) = _
    rw [sumRGBFlat_eq rest]
    show _ = (((((r, g, b) :: pixelsOfFlat rest)).map (fun p => p.1)).sum,
      ((((r, g, b) :: pixelsOfFlat rest)).map (fun p => p.2.1)).sum,
      ((((r, g, b) :: pixelsOfFlat rest)).map (fun p => p.2.2)).sum)
    simp

/-- **C1 (amended).** For every probe sample reduced into the atlas, the
texel value written equals, per channel, the plain (unweighted) sum of the
sample's pixels' linear RGB divided by the raw pixel count
`probeTargetSize² = 1024` — the solid-angle weight table plays no part in
this reduction. -/
theorem probeReduce_raw_average (probeData : List ℝ) :
    probeReduce probeData =
      (((pixelsOfFlat probeData).map (fun p => p.1)).sum / 1024,
       ((pixelsOfFlat probeData).map (fun p => p.2.1)).sum / 1024,
       ((pixelsOfFlat probeData).map (fun p => p.2.2)).sum / 1024) := by
  unfold probeReduce
  rw [sumRGBFlat_eq]
  norm_num [atlasProbeTargetSize]

/-- Groups of four zeros in a flat buffer are black pixels. -/
theorem pixelsOfFlat_replicate_zero : ∀ k : ℕ,
    pixelsOfFlat (List.replicate (4 * k) (0 : ℝ)) =
      List.replicate k ((0 : ℝ), (0 : ℝ), (0 : ℝ))
  | 0 => rfl
  | k + 1 => by
    rw [show 4 * (k + 1) = (((4 * k + 1) + 1) + 1) + 1 from by ring,
      List.replicate_succ, List.replicate_succ, List.replicate_succ,
      List.replicate_succ]
    show ((0 : ℝ), (0 : ℝ), (0 : ℝ)) ::
        pixelsOfFlat (List.replicate (4 * k) (0 : ℝ)) = _
    rw [pixelsOfFlat_replicate_zero k, List.replicate_succ]

/-- Weighted sums over all-black pixels vanish. -/
theorem zip_replicate_zero_sum (g : ℝ × ℝ × ℝ → ℝ) (hg : g (0, 0, 0) = 0) :
    ∀ (ws : List ℝ) (k : ℕ),
      ((ws.zip (List.replicate k ((0 : ℝ), (0 : ℝ), (0 : ℝ)))).map
        (fun wp => wp.1 * g wp.2)).sum = 0
  | [], _ => by simp
  | _ :: _, 0 => by simp
  | w :: ws, k + 1 => by
    rw [List.replicate_succ, List.zip_cons_cons, List.map_cons, List.sum_cons,
      zip_replicate_zero_sum g hg ws k, hg]
    ring

/-- Red-channel specialization of `zip_replicate_zero_sum`. -/
theorem zip_rep_zero_sum_r (ws : List ℝ) (k : ℕ) :
    ((ws.zip (List.replicate k ((0 : ℝ), (0 : ℝ), (0 : ℝ)))).map
      (fun wp => wp.1 * wp.2.1)).sum = 0 :=
  zip_replicate_zero_sum (fun p => p.1) rfl ws k

/-- Green-channel specialization of `zip_replicate_zero_sum`. -/
theorem zip_rep_zero_sum_g (ws : List ℝ) (k : ℕ) :
    ((ws.zip (List.replicate k ((0 : ℝ), (0 : ℝ), (0 : ℝ)))).map
      (fun wp => wp.1 * wp.2.2.1)).sum = 0 :=
  zip_replicate_zero_sum (fun p => p.2.1) rfl ws k

/-- Blue-channel specialization of `zip_replicate_zero_sum`. -/
theorem zip_rep_zero_sum_b (ws : List ℝ) (k : ℕ) :
    ((ws.zip (List.replicate k ((0 : ℝ), (0 : ℝ), (0 : ℝ)))).map
      (fun wp => wp.1 * wp.2.2.2)).sum = 0 :=
  zip_replicate_zero_sum (fun p => p.2.2) rfl ws k

/-- The corner weight is the minimum of the table: squared coordinate
offsets are maximal at pixel 0. -/
theorem probeCoord_sq_le (n p : ℕ) (hp : p < n) :
    (2 * ((p : ℝ) / n - 0.5 + 0.5 / n))^2 ≤
      (2 * (((0 : ℕ) : ℝ) / n - 0.5 + 0.5 / n))^2 := by
  have hn0 : 0 < n := by omega
  have hnR : (0 : ℝ) < n := by exact_mod_cast hn0
  have ht : ∀ q : ℕ, 2 * ((q : ℝ) / n - 0.5 + 0.5 / n) = (2 * q + 1 - n) / n := by
    intro q
    field_simp
    ring
  rw [ht p, ht 0]
  have h0 : ((2 * (0 : ℕ) + 1 - n) / n : ℝ)^2 = ((n - 1) / n : ℝ)^2 := by
    push_cast
    ring
  rw [h0]
  apply sq_le_sq'
  · rw [← neg_div, div_le_div_iff hnR hnR]
    have hpR : (p : ℝ) + 1 ≤ n := by exact_mod_cast hp
    have hp0 : (0 : ℝ) ≤ p := Nat.cast_nonneg p
    nlinarith
  · rw [div_le_div_iff hnR hnR]
    have hpR : (p : ℝ) + 1 ≤ n := by exact_mod_cast hp
    have hp0 : (0 : ℝ) ≤ p := Nat.cast_nonneg p
    nlinarith

/-- Pixel (0,0) carries the smallest weight of the whole table. -/
theorem probePixelArea_min (n px py : ℕ) (hpx : px < n) (hpy : py < n) :
    probePixelArea n 0 0 ≤ probePixelArea n px py := by
  rw [probePixelArea_eq, probePixelArea_eq]
  have hx := probeCoord_sq_le n px hpx
  have hy := probeCoord_sq_le n py hpy
  have hargpos : (0 : ℝ) < 1 + (2 * ((px : ℝ) / n - 0.5 + 0.5 / n))^2 +
      (2 * ((py : ℝ) / n - 0.5 + 0.5 / n))^2 := by positivity
  apply one_div_le_one_div_of_le (Real.sqrt_pos.mpr hargpos)
  apply Real.sqrt_le_sqrt
  have h0 : (((0 : ℕ) : ℝ)) = (0 : ℝ) := by norm_num
  rw [h0] at hx hy ⊢
  linarith

/-- The central pixel (16,16) of the 32×32 probe weighs strictly more than
the corner pixel (0,0). -/
theorem probePixelArea_mid_gt :
    probePixelArea 32 0 0 < probePixelArea 32 16 16 := by
  rw [probePixelArea_eq, probePixelArea_eq]
  have h0 : (2 * (((0 : ℕ) : ℝ) / (32 : ℕ) - 0.5 + 0.5 / (32 : ℕ)))^2 =
      961 / 1024 := by
    norm_num
  have h16 : (2 * (((16 : ℕ) : ℝ) / (32 : ℕ) - 0.5 + 0.5 / (32 : ℕ)))^2 =
      1 / 1024 := by
    norm_num
  rw [h0, h16]
  have hpos : (0 : ℝ) < Real.sqrt (1 + 961 / 1024 + 961 / 1024) :=
    Real.sqrt_pos.mpr (by norm_num)
  apply one_div_lt_one_div_of_lt
  · exact Real.sqrt_pos.mpr (by norm_num)
  · exact Real.sqrt_lt_sqrt (by norm_num) (by norm_num)

/-- **C1 counterexample.** On the probe sample whose only lit pixel is the
corner pixel, the value the code writes (the raw average, red channel
`1/1024`) differs from the spec's weight-normalized reduction (red channel
`w₀ / Σw < 1/1024`, because the corner weight `w₀` is the table's minimum
and the table is not constant). -/
theorem probeReduce_ne_weighted :
    probeReduce cexProbeFlat ≠
      specWeightedReduce (probePixelAreaLookup 32) (pixelsOfFlat cexProbeFlat) := by
  have hpix : pixelsOfFlat cexProbeFlat =
      (1, 0, 0) :: List.replicate 1023 ((0 : ℝ), (0 : ℝ), (0 : ℝ)) := by
    unfold cexProbeFlat
    show ((1 : ℝ), (0 : ℝ), (0 : ℝ)) ::
        pixelsOfFlat (List.replicate (4 * 1023) (0 : ℝ)) = _
    rw [pixelsOfFlat_replicate_zero]
  have hred : probeReduce cexProbeFlat = (1 / 1024, 0, 0) := by
    unfold probeReduce
    rw [sumRGBFlat_eq, hpix]
    simp only [List.map_cons, List.sum_cons, List.map_replicate,
      List.sum_replicate, smul_zero, atlasProbeTargetSize]
    norm_num
  have hlen : (probePixelAreaLookup 32).length = 1024 := by
    rw [probePixelAreaLookup_length]
  have hne : probePixelAreaLookup 32 ≠ [] :=
    List.ne_nil_of_length_pos (by omega)
  obtain ⟨w0, ws, hws⟩ := List.exists_cons_of_ne_nil hne
  have hw0 : w0 = probePixelArea 32 0 0 := by
    have h := getD_flatMap_rows (fun py px => probePixelArea 32 px py) 32
      (List.range 32) 0 0 (by simp) (by norm_num)
    have hrow : (List.range 32).getD 0 0 = 0 := rfl
    rw [hrow] at h
    have h2 : (probePixelAreaLookup 32).getD (0 * 32 + 0) 0 =
        probePixelArea 32 0 0 := h
    rw [hws] at h2
    simpa using h2
  have hmid : (probePixelAreaLookup 32).getD (16 * 32 + 16) 0 =
      probePixelArea 32 16 16 := by
    have h := getD_flatMap_rows (fun py px => probePixelArea 32 px py) 32
      (List.range 32) 16 16 (by simp) (by norm_num)
    have hrow : (List.range 32).getD 16 0 = 16 := rfl
    rw [hrow] at h
    exact h
  have hmid_mem : probePixelArea 32 16 16 ∈ probePixelAreaLookup 32 := by
    rw [List.getD_eq_getElem _ _ (by omega : 16 * 32 + 16 <
      (probePixelAreaLookup 32).length)] at hmid
    exact hmid ▸ List.getElem_mem _
  have hallge : ∀ x ∈ probePixelAreaLookup 32, w0 ≤ x := by
    intro x hx
    obtain ⟨px, py, hpx, hpy, rfl⟩ := probePixelAreaLookup_mem 32 x hx
    rw [hw0]
    exact probePixelArea_min 32 px py hpx hpy
  have hmidgt : w0 < probePixelArea 32 16 16 := by
    rw [hw0]
    exact probePixelArea_mid_gt
  have hsum : w0 * 1024 < (probePixelAreaLookup 32).sum := by
    have h := mul_lt_sum_of_exists w0 (probePixelArea 32 16 16) hmidgt
      (probePixelAreaLookup 32) hallge hmid_mem
    rw [hlen] at h
    push_cast at h
    linarith
  have hw0pos : 0 < w0 := by
    rw [hw0]
    have hb := (probePixelArea_bounds 32 0 0 (by norm_num) (by norm_num)
      (by decide)).1
    have h3 : (0 : ℝ) < 1 / Real.sqrt 3 := by
      have := Real.sqrt_pos.mpr (by norm_num : (0 : ℝ) < 3)
      positivity
    linarith
  have hWpos : 0 < (probePixelAreaLookup 32).sum := by nlinarith
  have hspec : specWeightedReduce (probePixelAreaLookup 32)
      (pixelsOfFlat cexProbeFlat) =
      (w0 / (probePixelAreaLookup 32).sum, 0, 0) := by
    rw [hpix]
    unfold specWeightedReduce
    dsimp only
    rw [hws]
    simp only [List.zip_cons_cons, List.map_cons, List.sum_cons,
      zip_rep_zero_sum_r, zip_rep_zero_sum_g, zip_rep_zero_sum_b]
    norm_num
  have hlt : w0 / (probePixelAreaLookup 32).sum < 1 / 1024 := by
    rw [div_lt_div_iff hWpos (by norm_num)]
    linarith
  rw [hred, hspec]
  intro hcontra
  have h1 := congrArg (fun t : ℝ × ℝ × ℝ => t.1) hcontra
  simp only at h1
  linarith
